import Mathlib

/-!
Verification of the serial stress-test tool (src/run.go) against its
natural-language specification.

The Go program is shallowly embedded: machine integers become ℤ/ℕ,
float64 latency values become ℚ, and the serial-port environment is an
explicit `World` supplying, for each device interaction in order, the
outcome of `serial.Open`, the discarded `Write`/`Read` error results, the
contents of the read buffer, and the measured latency.  A Go panic is
modelled as `Except.error`.
-/

set_option maxRecDepth 100000

instance {ε α : Type _} [DecidableEq ε] [DecidableEq α] : DecidableEq (Except ε α) := fun a b =>
  match a, b with
  | .error e, .error f =>
    if h : e = f then isTrue (h ▸ rfl) else isFalse fun hc => h (Except.error.inj hc)
  | .error _, .ok _ => isFalse Except.noConfusion
  | .ok _, .error _ => isFalse Except.noConfusion
  | .ok x, .ok y =>
    if h : x = y then isTrue (h ▸ rfl) else isFalse fun hc => h (Except.ok.inj hc)

/-- Alphabet of run.go line 13: `"abcdefghijklmnopqrstuvwxyzABCDEFGHIJKLMNOPQRSTUVWXYZ"`,
as ASCII byte values. -/
def letters : List ℕ :=
  (List.range 26).map (fun i => 97 + i) ++ (List.range 26).map (fun i => 65 + i)

/-- randSeq (run.go lines 15-21): a string of `n` letters drawn from the
random source.  The random source is modelled as a stream `rng`; `rand.Intn 52`
is `rng i % 52`, which ranges over exactly the indices Intn can return. -/
def randSeq (rng : ℕ → ℕ) (n : ℕ) : List ℕ :=
  (List.range n).map (fun i => letters.getD (rng i % 52) 0)

/-- CRC-32 polynomial used at run.go line 46: `crc32.MakeTable(0xEDB88320)`. -/
def crcPoly : ℕ := 0xEDB88320

/-- One bit step of Go's `hash/crc32` simpleMakeTable inner loop:
`if crc&1 == 1 { crc = (crc >> 1) ^ poly } else { crc >>= 1 }`. -/
def crcStep (c : ℕ) : ℕ := if c % 2 = 1 then (c / 2) ^^^ crcPoly else c / 2

/-- `crcStep` iterated, structurally. -/
def crcStepN : ℕ → ℕ → ℕ
  | 0, c => c
  | n + 1, c => crcStepN n (crcStep c)

/-- Table entry `i` of `crc32.MakeTable(0xEDB88320)`: eight bit steps. -/
def crcTable (i : ℕ) : ℕ := crcStepN 8 i

/-- One byte update of Go's `hash/crc32` simpleUpdate loop:
`crc = tab[byte(crc)^v] ^ (crc >> 8)`. -/
def crcUpdateByte (c b : ℕ) : ℕ := crcTable ((c % 256) ^^^ b) ^^^ (c / 256)

/-- `crc32.Checksum(data, crc32.MakeTable(0xEDB88320))` (run.go line 47):
simpleUpdate starts from `^0 = 0xFFFFFFFF` and complements the result. -/
def crc32 (data : List ℕ) : ℕ :=
  (data.foldl crcUpdateByte 0xFFFFFFFF) ^^^ 0xFFFFFFFF

/-- ASCII code of a base-16 digit, lowercase, as in Go's strconv digit table
`"0123456789abcdef..."`. -/
def hexDigit (d : ℕ) : ℕ := if d < 10 then 48 + d else 87 + d

/-- Digit loop of `strconv.FormatUint(n, 16)`: emit base-16 digits from the
least significant end.  `fuel` only forces structural termination; `hexBytes`
supplies more fuel than the number of digits. -/
def hexBytesCore : ℕ → ℕ → List ℕ → List ℕ
  | 0, _, acc => acc
  | fuel + 1, n, acc =>
    if n < 16 then hexDigit n :: acc
    else hexBytesCore fuel (n / 16) (hexDigit (n % 16) :: acc)

/-- `[]byte(strconv.FormatUint(uint64(n), 16))` (run.go line 48): base-16 text
of `n`, no fixed width, no leading zero padding, `"0"` for zero. -/
def hexBytes (n : ℕ) : List ℕ := hexBytesCore (n + 1) n []

/-- Environment record for one device interaction inside the transmission
loop (run.go lines 55-92): the result of `serial.Open`, the error results of
`Write` and `Read` (both are discarded by the source - lines 70-71 drop the
return values, and the `check(err)` at line 77 re-checks the stale `Open`
error), the bytes the read leaves in the buffer, and the measured latency
`float64(elapsed)` (modelled as ℚ). -/
structure DeviceEnv where
  openErr : Option String
  writeErr : Option String
  readErr : Option String
  buf : List ℕ
  elapsed : ℚ

/-- The external world: `dev i` is the environment of the i-th device
interaction of the whole run, and `rng k` is the random stream seen by the
k-th call to test_transmission (each call re-seeds with
`rand.Seed(time.Now().UnixNano())`, run.go line 40). -/
structure World where
  dev : ℕ → DeviceEnv
  rng : ℕ → ℕ → ℕ

/-- Program state threaded through calls: (device-interaction counter,
test_transmission call counter). -/
abbrev St := ℕ × ℕ

/-- Payload generated by the k-th test_transmission call for length `n`
(run.go line 42). -/
def payloadFor (w : World) (call : ℕ) (n : ℕ) : List ℕ :=
  randSeq (w.rng call) n

/-- Checksum text of that payload (run.go lines 46-48). -/
def checksumFor (w : World) (call : ℕ) (n : ℕ) : List ℕ :=
  hexBytes (crc32 (payloadFor w call n))

/-- Wire packet: payload with the checksum text appended (run.go line 49). -/
def packetFor (w : World) (call : ℕ) (n : ℕ) : List ℕ :=
  payloadFor w call n ++ checksumFor w call n

/-- Contents of the 10000-byte buffer `buf` (run.go line 67) after the read
put `received` into its front: the rest keeps its zero initialization. -/
def bufferAfterRead (received : List ℕ) : List ℕ :=
  (received ++ List.replicate 10000 0).take 10000

/-- Validity check of run.go line 81:
`strings.HasSuffix(string(buf[0:len(packet)]), string(checksum))`. -/
def validOK (w : World) (packet checksum : List ℕ) (d : ℕ) : Bool :=
  checksum.isSuffixOf ((bufferAfterRead (w.dev d).buf).take packet.length)

/-- Device loop of test_transmission (run.go lines 55-92), starting at device
counter `d`, with the latency and written-packet accumulators explicit.
Per device: `serial.Open` error panics via `check` (lines 64-65); the packet
is written (line 70; the write and read error results are discarded by the
source); `buf[0:len(packet)]` panics if the packet exceeds the buffer; an
invalid packet returns `(false, delays)` at once (lines 83-85); otherwise the
latency sample is appended (line 91) and the loop continues. -/
def transLoop (w : World) (packet checksum : List ℕ) :
    List String → ℕ → List ℚ → List (List ℕ) →
    Except String (Bool × List ℚ × List (List ℕ) × ℕ)
  | [], d, delays, ws => .ok (true, delays, ws, d)
  | _ :: rest, d, delays, ws =>
    match (w.dev d).openErr with
    | some msg => .error msg
    | none =>
      let ws := ws ++ [packet]
      if 10000 < packet.length then .error "runtime error: slice bounds out of range"
      else if validOK w packet checksum d then
        transLoop w packet checksum rest (d + 1) (delays ++ [(w.dev d).elapsed]) ws
      else .ok (false, delays, ws, d + 1)

/-- test_transmission (run.go lines 23-95).  A negative length makes
`make([]rune, n)` panic; otherwise one payload and packet are built for the
whole call (lines 42-49) and the device loop runs.  The returned trace of
written packets and the advanced state are exposed alongside the source's
`(bool, []float64)` result.  The `speed` argument only parametrizes
`serial.OpenOptions`; the device behaviour it induces lives in `w.dev`. -/
def test_transmission (w : World) (st : St) (ports : List String)
    (length speed : ℤ) : Except String (Bool × List ℚ × List (List ℕ) × St) :=
  if length < 0 then .error "makeslice: len out of range"
  else
    match transLoop w (packetFor w st.2 length.toNat) (checksumFor w st.2 length.toNat)
        ports st.1 [] [] with
    | .error e => .error e
    | .ok (s, d, ws, dev') => .ok (s, d, ws, (dev', st.2 + 1))

/-- Go integer division: truncation toward zero, and division by zero is a
runtime panic (run.go line 117 `max_speed / min_speed`). -/
def goDiv (a b : ℤ) : Except String ℤ :=
  if b = 0 then .error "runtime error: integer divide by zero" else .ok (a.tdiv b)

/-- Inner stepped sweep of test_for_speed (run.go lines 120-130):
`for speed := min_speed; speed < max_speed; speed += max_speed/min_speed`.
The post statement never runs after the failure branch (it breaks), so the
step is fixed for one sweep.  Returns `(some failingSpeed | none, last, st)`.
`fuel` only forces structural termination; the caller passes more fuel than
the sweep can iterate (the guard at line 117 makes the step at least 1). -/
def speedSweep (w : World) (ports : List String) (length : ℤ) (max_speed step : ℤ) :
    ℕ → ℤ → ℤ → St → Except String (Option ℤ × ℤ × St)
  | 0, _, last, st => .ok (none, last, st)
  | fuel + 1, speed, last, st =>
    if speed < max_speed then
      match test_transmission w st ports length speed with
      | .error e => .error e
      | .ok (res, _, _, st') =>
        if res then speedSweep w ports length max_speed step fuel (speed + step) speed st'
        else .ok (some speed, last, st')
    else .ok (none, last, st)

/-- test_for_speed (run.go lines 97-136).  Two outer passes.  Each pass first
evaluates the guard `max_speed / min_speed < 1` (line 117; panics when the
current minimum is zero), then runs the stepped sweep.  A failing speed
becomes the next pass's minimum (line 127).  The check `if res == true` after
the inner loop (line 131) reads the OUTER `res` declared at line 114, which
the inner `res, _ :=` (line 122) shadows; the outer one stays `false`, so
that early return is dead code - it is kept here verbatim. -/
def test_for_speed (w : World) (st : St) (ports : List String) (length : ℤ)
    (min_speed max_speed : ℤ) : Except String (ℤ × St) :=
  let outer_res := false
  match goDiv max_speed min_speed with
  | .error e => .error e
  | .ok step1 =>
    if step1 < 1 then .ok (0, st)
    else
      match speedSweep w ports length max_speed step1
          ((max_speed - min_speed).toNat + 1) min_speed 0 st with
      | .error e => .error e
      | .ok (failAt1, last1, st1) =>
        if outer_res then .ok (last1, st1)
        else
          let min2 := match failAt1 with | some sp => sp | none => min_speed
          match goDiv max_speed min2 with
          | .error e => .error e
          | .ok step2 =>
            if step2 < 1 then .ok (last1, st1)
            else
              match speedSweep w ports length max_speed step2
                  ((max_speed - min2).toNat + 1) min2 last1 st1 with
              | .error e => .error e
              | .ok (_, last2, st2) => .ok (last2, st2)

/-- Inner linear sweep of test_for_length (run.go lines 157-166):
`for length := min_length; length < max_length; length++`.  Also records the
trace of `(length, success)` tests of this pass.  Returns
`(returnedEarly, last, st, trace)`.  `fuel` only forces structural
termination; the caller passes more fuel than the sweep can iterate. -/
def lengthSweep (w : World) (ports : List String) (speed max_length : ℤ) :
    ℕ → ℤ → ℤ → St → List (ℤ × Bool) →
    Except String (Bool × ℤ × St × List (ℤ × Bool))
  | 0, _, last, st, tr => .ok (false, last, st, tr)
  | fuel + 1, length, last, st, tr =>
    if length < max_length then
      match test_transmission w st ports length speed with
      | .error e => .error e
      | .ok (res, _, _, st') =>
        if res then
          lengthSweep w ports speed max_length fuel (length + 1) length st' (tr ++ [(length, true)])
        else .ok (true, last, st', tr ++ [(length, false)])
    else .ok (false, last, st, tr)

/-- test_for_length (run.go lines 138-169): up to two passes of the linear
sweep, both restarting at `min_length`; the first failing length returns the
recorded value immediately from inside the loop (line 164).  The traces of
the executed passes are exposed alongside the result. -/
def test_for_length (w : World) (st : St) (ports : List String) (speed : ℤ)
    (min_length max_length : ℤ) : Except String (ℤ × St × List (List (ℤ × Bool))) :=
  match lengthSweep w ports speed max_length ((max_length - min_length).toNat + 1)
      min_length 0 st [] with
  | .error e => .error e
  | .ok (early1, last1, st1, tr1) =>
    if early1 then .ok (last1, st1, [tr1])
    else
      match lengthSweep w ports speed max_length ((max_length - min_length).toNat + 1)
          min_length last1 st1 [] with
      | .error e => .error e
      | .ok (_, last2, st2, tr2) => .ok (last2, st2, [tr1, tr2])

/-- Sampling loop of test_for_delay (run.go lines 188-200): run up to
`samples` transmissions, stop at the first unsuccessful one before appending
its latencies, and collect every latency of the successful runs. -/
def delayLoop (w : World) (ports : List String) (length speed : ℤ) :
    ℕ → St → List ℚ → Except String (List ℚ × St)
  | 0, st, delays => .ok (delays, st)
  | n + 1, st, delays =>
    match test_transmission w st ports length speed with
    | .error e => .error e
    | .ok (res, d, _, st') =>
      if res then delayLoop w ports length speed n st' (delays ++ d)
      else .ok (delays, st')

/-- One iteration of the statistics loop of test_for_delay (run.go lines
205-219), with the source's sequential updates kept verbatim: `0` doubles as
the not-yet-set marker for both `min_delay` and `max_delay`. -/
def statsFold (s : ℚ × ℚ × ℚ) (value : ℚ) : ℚ × ℚ × ℚ :=
  let total := s.1 + value
  let mn0 := s.2.1
  let mx0 := s.2.2
  let mn1 := if mn0 = 0 then value else mn0
  let mx1 := if mx0 = 0 then value else mx0
  let mn2 := if mn1 > value then value else mn1
  let mx2 := if mx1 < value then value else mx1
  (total, mn2, mx2)

/-- test_for_delay (run.go lines 171-228).  Returns
(average, min_delay, max_delay, state); the average `total/float64(len(delays))`
is NaN in Go when no sample was collected (0/0), modelled as `none`. -/
def test_for_delay (w : World) (st : St) (ports : List String)
    (length speed : ℤ) (samples : ℤ) :
    Except String (Option ℚ × ℚ × ℚ × St) :=
  match delayLoop w ports length speed samples.toNat st [] with
  | .error e => .error e
  | .ok (delays, st') =>
    let s := delays.foldl statsFold (0, 0, 0)
    let avg := if delays.length = 0 then none else some (s.1 / (delays.length : ℚ))
    .ok (avg, s.2.1, s.2.2, st')

/-- Number of devices, counting from device counter `d0` through `n` devices,
that validate before the first invalid one (equivalently: the index of the
first device failing the line-81 check, or `n` if every device validates). -/
def validPrefixLen (w : World) (packet checksum : List ℕ) : ℕ → ℕ → ℕ
  | _, 0 => 0
  | d0, n + 1 =>
    if validOK w packet checksum d0 then
      validPrefixLen w packet checksum (d0 + 1) n + 1
    else 0

/-- Modelled from the spec: section 4.2 reads, for every device in the set,
"1. Generate a fresh payload of length L.  2. Compute its CRC-32 ... forming
the packet."  This variant regenerates the payload for each device,
consuming a fresh random stream per device, and exists only to contrast with
the source, which builds one packet per call (run.go lines 42-49, before the
loop). -/
def freshLoop (w : World) (len : ℕ) :
    List String → ℕ → ℕ → List ℚ → List (List ℕ) →
    Except String (Bool × List ℚ × List (List ℕ))
  | [], _, _, delays, ws => .ok (true, delays, ws)
  | _ :: rest, d, call, delays, ws =>
    let data := randSeq (w.rng call) len
    let cs := hexBytes (crc32 data)
    let packet := data ++ cs
    match (w.dev d).openErr with
    | some msg => .error msg
    | none =>
      let ws := ws ++ [packet]
      if 10000 < packet.length then .error "runtime error: slice bounds out of range"
      else if cs.isSuffixOf ((bufferAfterRead (w.dev d).buf).take packet.length) then
        freshLoop w len rest (d + 1) (call + 1) (delays ++ [(w.dev d).elapsed]) ws
      else .ok (false, delays, ws)

/-- Modelled from the spec: test_transmission as section 4.2 words it, with a
fresh payload generated per device.  Only the written-packet trace matters
for the comparison with the source. -/
def test_transmission_freshPerDev (w : World) (st : St) (ports : List String)
    (length speed : ℤ) : Except String (Bool × List ℚ × List (List ℕ)) :=
  if length < 0 then .error "makeslice: len out of range"
  else freshLoop w length.toNat ports st.1 st.2 [] []

/-- Most recently recorded success of a `(length, success)` trace, with
default `L` - the value `last_working_length` holds after the trace. -/
def lastSucc (t : List (ℤ × Bool)) (L : ℤ) : ℤ :=
  ((t.filter (fun p => p.2)).map Prod.fst).getLastD L

/-- A device environment with a given buffer and latency and no errors. -/
def constDev (buf : List ℕ) (e : ℚ) : DeviceEnv :=
  { openErr := none, writeErr := none, readErr := none, buf := buf, elapsed := e }

/-- The all-zero random stream: every payload character is letter 0, 'a'. -/
def zeroRng : ℕ → ℕ → ℕ := fun _ _ => 0

/-- Packet built from the all-'a' payload of length n. -/
def pktA (n : ℕ) : List ℕ :=
  randSeq (zeroRng 0) n ++ hexBytes (crc32 (randSeq (zeroRng 0) n))

/-- World in which every device echoes the all-'a' packet of length n with
latency e: every transmission of length n verifies. -/
def okWorld (n : ℕ) (e : ℚ) : World :=
  { dev := fun _ => constDev (pktA n) e, rng := zeroRng }

-- sanity: the standard CRC-32 check value
example : crc32 [49, 50, 51, 52, 53, 54, 55, 56, 57] = 0xCBF43926 := by decide

example : test_transmission (okWorld 4 1) (0, 0) ["p"] 4 9600
    = .ok (true, [1], [pktA 4], (1, 1)) := by decide

lemma crcStep_lt {c : ℕ} (h : c < 2 ^ 32) : crcStep c < 2 ^ 32 := by
  unfold crcStep
  split
  · exact Nat.xor_lt_two_pow (by omega) (by norm_num [crcPoly])
  · omega

lemma crcStepN_lt : ∀ (n : ℕ) {c : ℕ}, c < 2 ^ 32 → crcStepN n c < 2 ^ 32
  | 0, _, h => h
  | n + 1, _, h => crcStepN_lt n (crcStep_lt h)

lemma crcUpdateByte_lt {c b : ℕ} (hc : c < 2 ^ 32) (hb : b < 256) :
    crcUpdateByte c b < 2 ^ 32 := by
  unfold crcUpdateByte crcTable
  refine Nat.xor_lt_two_pow (crcStepN_lt 8 ?_) (by omega)
  have : c % 256 < 256 := Nat.mod_lt _ (by omega)
  have := Nat.xor_lt_two_pow (n := 8) (by omega : c % 256 < 2 ^ 8) (by omega : b < 2 ^ 8)
  omega

lemma crc_foldl_lt : ∀ (l : List ℕ) {c : ℕ}, c < 2 ^ 32 → (∀ b ∈ l, b < 256) →
    l.foldl crcUpdateByte c < 2 ^ 32
  | [], _, hc, _ => hc
  | b :: l, _, hc, hl =>
    crc_foldl_lt l (crcUpdateByte_lt hc (hl b (by simp))) fun x hx => hl x (by simp [hx])

lemma crc32_lt (data : List ℕ) (h : ∀ b ∈ data, b < 256) : crc32 data < 2 ^ 32 := by
  unfold crc32
  exact Nat.xor_lt_two_pow (crc_foldl_lt data (by norm_num) h) (by norm_num)

lemma hexBytesCore_head : ∀ (fuel n : ℕ) (acc : List ℕ), n < fuel → 0 < n →
    ∃ d, 0 < d ∧ d < 16 ∧ (hexBytesCore fuel n acc).head? = some (hexDigit d) := by
  intro fuel
  induction fuel with
  | zero => intro n acc hn; omega
  | succ f ih =>
    intro n acc hn h0
    by_cases h16 : n < 16
    · exact ⟨n, h0, h16, by simp [hexBytesCore, h16]⟩
    · have hdiv : n / 16 < n := Nat.div_lt_self (by omega) (by omega)
      have hpos : 0 < n / 16 := Nat.div_pos (by omega) (by omega)
      obtain ⟨d, hd0, hd16, hd⟩ := ih (n / 16) (hexDigit (n % 16) :: acc) (by omega) hpos
      exact ⟨d, hd0, hd16, by rw [hexBytesCore, if_neg h16]; exact hd⟩

lemma hexBytes_no_leading_zero (m : ℕ) (h : 0 < m) : (hexBytes m).head? ≠ some 48 := by
  obtain ⟨d, hd0, hd16, hd⟩ := hexBytesCore_head (m + 1) m [] (by omega) h
  rw [hexBytes, hd]
  intro hc
  have : hexDigit d = 48 := by injection hc
  unfold hexDigit at this
  split at this <;> omega

lemma validPrefixLen_le (w : World) (packet checksum : List ℕ) :
    ∀ (n d0 : ℕ), validPrefixLen w packet checksum d0 n ≤ n := by
  intro n
  induction n with
  | zero => intro d0; simp [validPrefixLen]
  | succ n ih =>
    intro d0
    rw [validPrefixLen]
    split
    · have := ih (d0 + 1); omega
    · omega

lemma validPrefixLen_eq_iff (w : World) (packet checksum : List ℕ) :
    ∀ (n d0 : ℕ), validPrefixLen w packet checksum d0 n = n ↔
      ∀ i < n, validOK w packet checksum (d0 + i) = true := by
  intro n
  induction n with
  | zero => intro d0; simp [validPrefixLen]
  | succ n ih =>
    intro d0
    rw [validPrefixLen]
    by_cases hv : validOK w packet checksum d0
    · rw [if_pos hv]
      constructor
      · intro h i hi
        rcases Nat.eq_zero_or_pos i with hz | hp
        · simpa [hz] using hv
        · obtain ⟨j, rfl⟩ := Nat.exists_eq_add_of_le hp
          have := (ih (d0 + 1)).mp (by omega) j (by omega)
          rwa [show d0 + 1 + j = d0 + (1 + j) by omega] at this
      · intro h
        have : validPrefixLen w packet checksum (d0 + 1) n = n := by
          refine (ih (d0 + 1)).mpr fun j hj => ?_
          have := h (1 + j) (by omega)
          rwa [show d0 + (1 + j) = d0 + 1 + j by omega] at this
        omega
    · rw [if_neg hv]
      constructor
      · omega
      · intro h
        exact absurd (by simpa using h 0 (by omega)) hv

lemma transLoop_eq (w : World) (packet checksum : List ℕ)
    (hlen : packet.length ≤ 10000) :
    ∀ (ports : List String) (d0 : ℕ) (acc : List ℚ) (ws : List (List ℕ)),
    (∀ i, i < ports.length → (w.dev (d0 + i)).openErr = none) →
    transLoop w packet checksum ports d0 acc ws =
      .ok (decide (validPrefixLen w packet checksum d0 ports.length = ports.length),
        acc ++ (List.range (min (validPrefixLen w packet checksum d0 ports.length)
          ports.length)).map (fun i => (w.dev (d0 + i)).elapsed),
        ws ++ List.replicate (min (validPrefixLen w packet checksum d0 ports.length + 1)
          ports.length) packet,
        d0 + min (validPrefixLen w packet checksum d0 ports.length + 1) ports.length) := by
  intro ports
  induction ports with
  | nil =>
    intro d0 acc ws _
    simp [transLoop, validPrefixLen]
  | cons p rest ih =>
    intro d0 acc ws hopen
    have h0 : (w.dev d0).openErr = none := by simpa using hopen 0 (by simp)
    rw [transLoop, h0]
    simp only [List.length_cons]
    rw [if_neg (by omega)]
    by_cases hv : validOK w packet checksum d0
    · rw [if_pos hv]
      have hopen' : ∀ i, i < rest.length → (w.dev (d0 + 1 + i)).openErr = none := by
        intro i hi
        have := hopen (i + 1) (by simp; omega)
        rwa [show d0 + (i + 1) = d0 + 1 + i by omega] at this
      rw [ih (d0 + 1) (acc ++ [(w.dev d0).elapsed]) (ws ++ [packet]) hopen']
      have hk : validPrefixLen w packet checksum d0 (rest.length + 1)
          = validPrefixLen w packet checksum (d0 + 1) rest.length + 1 := by
        rw [validPrefixLen, if_pos hv]
      simp only [hk]
      refine congrArg Except.ok ?_
      have hmin1 : min (validPrefixLen w packet checksum (d0 + 1) rest.length + 1)
          (rest.length + 1)
          = min (validPrefixLen w packet checksum (d0 + 1) rest.length) rest.length + 1 :=
        Nat.succ_min_succ _ _
      have hmin2 : min (validPrefixLen w packet checksum (d0 + 1) rest.length + 1 + 1)
          (rest.length + 1)
          = min (validPrefixLen w packet checksum (d0 + 1) rest.length + 1) rest.length + 1 :=
        Nat.succ_min_succ _ _
      refine Prod.ext (by simp) (Prod.ext ?_ (Prod.ext ?_ ?_)) <;>
        simp only [hmin1, hmin2, List.range_succ_eq_map, List.map_cons, List.map_map,
          List.replicate_succ, List.append_assoc, List.singleton_append, List.cons_append]
      · refine congrArg (fun l => acc ++ (w.dev (d0 + 0)).elapsed :: l) ?_
        refine congrArg (fun f => List.map f (List.range _)) ?_
        funext i
        simp only [Function.comp]
        exact congrArg (fun j => (w.dev j).elapsed) (by omega)
      · rfl
      · simp only [Nat.add_comm d0 1, Nat.add_assoc]
        omega
    · rw [if_neg hv]
      have hk : validPrefixLen w packet checksum d0 (rest.length + 1) = 0 := by
        rw [validPrefixLen, if_neg hv]
      simp only [hk]
      simp [Nat.succ_min_succ]

lemma transLoop_writes (w : World) (packet checksum : List ℕ) :
    ∀ (ports : List String) (d0 : ℕ) (acc : List ℚ) (ws0 : List (List ℕ))
      (s : Bool) (dl : List ℚ) (ws : List (List ℕ)) (d' : ℕ),
    transLoop w packet checksum ports d0 acc ws0 = .ok (s, dl, ws, d') →
    ∀ q ∈ ws, q ∈ ws0 ∨ q = packet := by
  intro ports
  induction ports with
  | nil =>
    intro d0 acc ws0 s dl ws d' h q hq
    simp only [transLoop, Except.ok.injEq, Prod.mk.injEq] at h
    obtain ⟨-, -, hws, -⟩ := h
    exact Or.inl (hws ▸ hq)
  | cons p rest ih =>
    intro d0 acc ws0 s dl ws d' h q hq
    rw [transLoop] at h
    cases hop : (w.dev d0).openErr with
    | some msg => rw [hop] at h; exact absurd h (by simp)
    | none =>
      rw [hop] at h
      by_cases hbig : 10000 < packet.length
      · rw [if_pos hbig] at h; exact absurd h (by simp)
      · rw [if_neg hbig] at h
        by_cases hv : validOK w packet checksum d0
        · rw [if_pos hv] at h
          rcases ih (d0 + 1) _ _ _ _ _ _ h q hq with hin | heq
          · rcases List.mem_append.mp hin with h1 | h1
            · exact Or.inl h1
            · exact Or.inr (by simpa using h1)
          · exact Or.inr heq
        · rw [if_neg hv] at h
          simp only [Except.ok.injEq, Prod.mk.injEq] at h
          obtain ⟨-, -, hws, -⟩ := h
          rcases List.mem_append.mp (hws ▸ hq) with h1 | h1
          · exact Or.inl h1
          · exact Or.inr (by simpa using h1)

/-- C1: for every device set, length L >= 0 and speed S (given that every
relevant `serial.Open` succeeds and the packet fits the 10000-byte buffer, so
that no panic occurs), test_transmission returns success = true iff every
device in the set passed the line-81 verification; it stops at the first
invalid device, consuming no further devices, and the latency sequence holds
exactly one sample per device that validated before the failure, in device
order, the failing device contributing no sample. -/
theorem test_transmission_success_iff
    (w : World) (st : St) (ports : List String) (length speed : ℤ)
    (h0 : 0 ≤ length)
    (hopen : ∀ i, i < ports.length → (w.dev (st.1 + i)).openErr = none)
    (hlen : (packetFor w st.2 length.toNat).length ≤ 10000) :
    test_transmission w st ports length speed =
      .ok (decide (validPrefixLen w (packetFor w st.2 length.toNat)
            (checksumFor w st.2 length.toNat) st.1 ports.length = ports.length),
        (List.range (min (validPrefixLen w (packetFor w st.2 length.toNat)
            (checksumFor w st.2 length.toNat) st.1 ports.length) ports.length)).map
          (fun i => (w.dev (st.1 + i)).elapsed),
        List.replicate (min (validPrefixLen w (packetFor w st.2 length.toNat)
            (checksumFor w st.2 length.toNat) st.1 ports.length + 1) ports.length)
          (packetFor w st.2 length.toNat),
        (st.1 + min (validPrefixLen w (packetFor w st.2 length.toNat)
            (checksumFor w st.2 length.toNat) st.1 ports.length + 1) ports.length, st.2 + 1))
    ∧ (validPrefixLen w (packetFor w st.2 length.toNat)
        (checksumFor w st.2 length.toNat) st.1 ports.length = ports.length ↔
       ∀ i < ports.length, validOK w (packetFor w st.2 length.toNat)
          (checksumFor w st.2 length.toNat) (st.1 + i) = true) := by
  constructor
  · rw [test_transmission, if_neg (by omega)]
    rw [transLoop_eq w _ _ hlen ports st.1 [] [] hopen]
    simp
  · exact validPrefixLen_eq_iff w _ _ ports.length st.1

/-- Witness for C1 at a concrete world in which both devices validate. -/
theorem test_transmission_success_iff_witness :
    test_transmission (okWorld 16 1) (0, 0) ["p0", "p1"] 16 9600 =
      .ok (decide (validPrefixLen (okWorld 16 1) (packetFor (okWorld 16 1) 0 16)
            (checksumFor (okWorld 16 1) 0 16) 0 2 = 2),
        (List.range (min (validPrefixLen (okWorld 16 1) (packetFor (okWorld 16 1) 0 16)
            (checksumFor (okWorld 16 1) 0 16) 0 2) 2)).map
          (fun i => ((okWorld 16 1).dev (0 + i)).elapsed),
        List.replicate (min (validPrefixLen (okWorld 16 1) (packetFor (okWorld 16 1) 0 16)
            (checksumFor (okWorld 16 1) 0 16) 0 2 + 1) 2) (packetFor (okWorld 16 1) 0 16),
        (0 + min (validPrefixLen (okWorld 16 1) (packetFor (okWorld 16 1) 0 16)
            (checksumFor (okWorld 16 1) 0 16) 0 2 + 1) 2, 0 + 1))
    ∧ (validPrefixLen (okWorld 16 1) (packetFor (okWorld 16 1) 0 16)
        (checksumFor (okWorld 16 1) 0 16) 0 2 = 2 ↔
       ∀ i < 2, validOK (okWorld 16 1) (packetFor (okWorld 16 1) 0 16)
          (checksumFor (okWorld 16 1) 0 16) (0 + i) = true) :=
  test_transmission_success_iff (okWorld 16 1) (0, 0) ["p0", "p1"] 16 9600
    (by norm_num) (fun i _ => rfl) (by decide)

/-- C3: the wire packet is the payload followed directly by the base-16 text
of the unsigned 32-bit CRC-32 (reflected polynomial 0xEDB88320, standard
check value 0xCBF43926 on "123456789") of the payload, with no fixed width
and no leading zero padding; and a received buffer is judged valid exactly
when that buffer, truncated to the packet's length, ends with this same
checksum text. -/
theorem packet_format_and_validity :
    (∀ data : List ℕ, (∀ b ∈ data, b < 256) → crc32 data < 2 ^ 32) ∧
    crc32 [49, 50, 51, 52, 53, 54, 55, 56, 57] = 0xCBF43926 ∧
    hexBytes 0 = [48] ∧
    (∀ m : ℕ, 0 < m → (hexBytes m).head? ≠ some 48) ∧
    (∀ (w : World) (call n : ℕ),
      packetFor w call n = payloadFor w call n ++ hexBytes (crc32 (payloadFor w call n))) ∧
    (∀ (w : World) (st : St) (port : String) (length speed : ℤ),
      0 ≤ length → (w.dev st.1).openErr = none →
      (packetFor w st.2 length.toNat).length ≤ 10000 →
      ∃ dl ws st',
        test_transmission w st [port] length speed
          = .ok (validOK w (packetFor w st.2 length.toNat)
              (checksumFor w st.2 length.toNat) st.1, dl, ws, st') ∧
        validOK w (packetFor w st.2 length.toNat) (checksumFor w st.2 length.toNat) st.1
          = (checksumFor w st.2 length.toNat).isSuffixOf
              ((bufferAfterRead (w.dev st.1).buf).take
                (packetFor w st.2 length.toNat).length)) := by
  refine ⟨crc32_lt, by decide, by decide, hexBytes_no_leading_zero,
    fun w call n => rfl, ?_⟩
  intro w st port length speed h0 hopen hlen
  have hop : ∀ i, i < ([port] : List String).length → (w.dev (st.1 + i)).openErr = none := by
    intro i hi
    have : i = 0 := by simpa using hi
    simpa [this] using hopen
  have h := transLoop_eq w (packetFor w st.2 length.toNat)
    (checksumFor w st.2 length.toNat) hlen [port] st.1 [] [] hop
  have hvp : decide (validPrefixLen w (packetFor w st.2 length.toNat)
      (checksumFor w st.2 length.toNat) st.1 ([port] : List String).length
        = ([port] : List String).length)
      = validOK w (packetFor w st.2 length.toNat) (checksumFor w st.2 length.toNat) st.1 := by
    by_cases hv : validOK w (packetFor w st.2 length.toNat)
        (checksumFor w st.2 length.toNat) st.1
    · simp [validPrefixLen, hv]
    · simp [validPrefixLen, hv]
  rw [hvp] at h
  rw [test_transmission, if_neg (by omega), h]
  exact ⟨_, _, _, rfl, rfl⟩

/-- Witness for C3's conditional part at a concrete world. -/
theorem packet_format_and_validity_witness :
    ∃ dl ws st',
      test_transmission (okWorld 4 1) (0, 0) ["p"] 4 9600
        = .ok (validOK (okWorld 4 1) (packetFor (okWorld 4 1) 0 4)
            (checksumFor (okWorld 4 1) 0 4) 0, dl, ws, st') ∧
      validOK (okWorld 4 1) (packetFor (okWorld 4 1) 0 4)
          (checksumFor (okWorld 4 1) 0 4) 0
        = (checksumFor (okWorld 4 1) 0 4).isSuffixOf
            ((bufferAfterRead ((okWorld 4 1).dev 0).buf).take
              (packetFor (okWorld 4 1) 0 4).length) :=
  packet_format_and_validity.2.2.2.2.2 (okWorld 4 1) (0, 0) "p" 4 9600
    (by norm_num) rfl (by decide)

/-- World for C2: the device opens fine but both `Write` and `Read` report
errors; the read leaves nothing in the buffer. -/
def w2read : World :=
  { dev := fun _ => ⟨none, some "write failed", some "read failed", [], 1⟩,
    rng := zeroRng }

/-- World for C2: `serial.Open` itself fails. -/
def w2open : World :=
  { dev := fun _ => ⟨some "open failed", none, none, [], 1⟩,
    rng := zeroRng }

/-- C2: the claim says every open/write/read error panics while a CRC
mismatch only yields success=false.  The code only panics on an `Open` error:
the `Write` and `Read` error results are discarded (run.go lines 70-71; the
`check(err)` at line 77 re-checks the stale `Open` error), so a failing read
surfaces as an ordinary success=false verification result, not a panic -
demonstrated here on a device whose write and read both fail. -/
theorem io_error_handling_behavior :
    test_transmission w2read (0, 0) ["p"] 4 9600 = .ok (false, [], [pktA 4], (1, 1)) ∧
    test_transmission w2open (0, 0) ["p"] 4 9600 = .error "open failed" :=
  ⟨by decide, by decide⟩

/-- Packet built from the all-'b' payload of length n (random stream
constantly 1). -/
def pktB (n : ℕ) : List ℕ :=
  randSeq (fun _ => 1) n ++ hexBytes (crc32 (randSeq (fun _ => 1) n))

/-- World for C6: the random stream of the k-th transmission call yields the
k-th letter constantly, so distinct calls (and distinct devices, in the
spec-worded per-device variant) would generate distinct payloads; every
device echoes the packet of call 0. -/
def w6 : World :=
  { dev := fun _ => constDev (pktA 2) 1, rng := fun call _ => call }

/-- Counterexample to C6: the source writes the SAME packet to both devices
of one test_transmission call (the payload is generated once, before the
device loop, run.go line 42), even though the random source would yield a
different payload on a second generation - as the spec-worded fresh-payload
variant shows on the same world. -/
theorem single_payload_counterexample :
    test_transmission w6 (0, 0) ["p0", "p1"] 2 9600
      = .ok (true, [1, 1], [pktA 2, pktA 2], (2, 1)) ∧
    test_transmission_freshPerDev w6 (0, 0) ["p0", "p1"] 2 9600
      = .ok (false, [1], [pktA 2, pktB 2]) ∧
    pktA 2 ≠ pktB 2 :=
  ⟨by decide, by decide, by decide⟩

/-- C6 (amended): within one test_transmission call, a single payload of
length L is generated before the device loop, and every packet written to any
device in the set is that same packet. -/
theorem single_payload_per_call
    (w : World) (st : St) (ports : List String) (length speed : ℤ)
    (s : Bool) (d : List ℚ) (ws : List (List ℕ)) (st' : St)
    (h : test_transmission w st ports length speed = .ok (s, d, ws, st')) :
    ∀ q ∈ ws, q = packetFor w st.2 length.toNat := by
  rw [test_transmission] at h
  by_cases hneg : length < 0
  · rw [if_pos hneg] at h; exact absurd h (by simp)
  · rw [if_neg hneg] at h
    cases htl : transLoop w (packetFor w st.2 length.toNat)
        (checksumFor w st.2 length.toNat) ports st.1 [] [] with
    | error e => rw [htl] at h; exact absurd h (by simp)
    | ok out =>
      obtain ⟨s1, dl1, ws1, d1⟩ := out
      rw [htl] at h
      simp only [Except.ok.injEq, Prod.mk.injEq] at h
      obtain ⟨-, -, hws, -⟩ := h
      intro q hq
      rcases transLoop_writes w _ _ ports st.1 [] [] s1 dl1 ws1 d1 htl q (hws ▸ hq) with hin | heq
      · exact absurd hin (by simp)
      · exact heq

/-- Witness for C6's amended statement at a concrete two-device call: the
first written packet is the call's one generated packet. -/
theorem single_payload_per_call_witness :
    pktA 2 = packetFor w6 0 (2 : ℤ).toNat :=
  single_payload_per_call w6 (0, 0) ["p0", "p1"] 2 9600
    true [1, 1] [pktA 2, pktA 2] (2, 1) (by decide) (pktA 2) (by simp)

/-- C4: the claim says that if the first inner sweep completes without any
failing transmission, test_for_speed returns immediately without a second
outer pass.  In the source the inner `res, _ :=` (run.go line 122) shadows
the outer `res` (line 114), so the post-loop check at line 131 always reads
false and the second pass always runs: in a world where every transmission
succeeds, the sweep over [1, 3) with step 3 makes exactly one transmission
call per pass, and the final call counter is 2 - the second pass ran. -/
theorem speed_second_pass_always_runs :
    test_transmission (okWorld 1 1) (0, 0) ["p"] 1 1 = .ok (true, [1], [pktA 1], (1, 1)) ∧
    test_for_speed (okWorld 1 1) (0, 0) ["p"] 1 1 3 = .ok (1, (2, 2)) :=
  ⟨by decide, by decide⟩

/-- Counterexample to C5: in a world where a single transmission at 9600 with
a 16-byte payload does verify (first conjunct), test_for_speed with
min_speed = max_speed = 9600 still returns 0, with the device counter showing
that no transmission was even attempted (second conjunct) - the strict bound
`speed < max_speed` of run.go line 120 excludes the endpoint. -/
theorem speed_search_equal_bounds_counterexample :
    test_transmission (okWorld 16 1) (0, 0) ["p0", "p1"] 16 9600
      = .ok (true, [1, 1], [pktA 16, pktA 16], (2, 1)) ∧
    test_for_speed (okWorld 16 1) (0, 0) ["p0", "p1"] 16 9600 9600 = .ok (0, (0, 0)) :=
  ⟨by decide, by decide⟩

/-- C5 (amended): with min_speed = max_speed = 9600, test_for_speed returns 0
and leaves the state untouched (no transmission is attempted), for every
world, device set and payload length, because the inner loop's strict bound
`speed < max_speed` is empty at equal bounds. -/
theorem speed_search_equal_bounds (w : World) (st : St) (ports : List String)
    (length : ℤ) :
    test_for_speed w st ports length 9600 9600 = .ok (0, st) := rfl

/-- C10: calling test_for_speed with min_speed = 0 evaluates the guard
`max_speed / min_speed` (run.go line 117), an integer division by zero, so
the call panics before any transmission is attempted, for every world, device
set, payload length and max_speed; and any min_speed >= 1 keeps the guard and
step division defined. -/
theorem speed_search_div_by_zero (w : World) (st : St) (ports : List String)
    (length max_speed : ℤ) :
    test_for_speed w st ports length 0 max_speed
      = .error "runtime error: integer divide by zero" ∧
    (∀ mn : ℤ, 1 ≤ mn → goDiv max_speed mn = .ok (max_speed.tdiv mn)) := by
  constructor
  · rfl
  · intro mn hmn
    rw [goDiv, if_neg (by omega)]

/-- Witness for C10 at concrete inputs. -/
theorem speed_search_div_by_zero_witness :
    test_for_speed (okWorld 1 1) (0, 0) ["p"] 1 0 5
      = .error "runtime error: integer divide by zero" ∧
    goDiv 5 2 = .ok ((5 : ℤ).tdiv 2) :=
  ⟨(speed_search_div_by_zero (okWorld 1 1) (0, 0) ["p"] 1 5).1,
   (speed_search_div_by_zero (okWorld 1 1) (0, 0) ["p"] 1 5).2 2 (by norm_num)⟩

lemma getLastD_append' {α : Type _} (xs ys : List α) (d : α) :
    (xs ++ ys).getLastD d = ys.getLastD (xs.getLastD d) := by
  induction xs generalizing d with
  | nil => rfl
  | cons x xs ih =>
    rw [List.cons_append, List.getLastD_cons, ih, List.getLastD_cons]

lemma lastSucc_append (a b : List (ℤ × Bool)) (L : ℤ) :
    lastSucc (a ++ b) L = lastSucc b (lastSucc a L) := by
  unfold lastSucc
  rw [List.filter_append, List.map_append, getLastD_append']

lemma lastSucc_cons_true (x : ℤ) (t : List (ℤ × Bool)) (L : ℤ) :
    lastSucc ((x, true) :: t) L = lastSucc t x := by
  have hf : List.filter (fun p => p.2) ((x, true) :: t)
      = (x, true) :: List.filter (fun p => p.2) t := by
    simp [List.filter_cons]
  unfold lastSucc
  rw [hf, List.map_cons, List.getLastD_cons]

lemma lastSucc_cons_false (x : ℤ) (t : List (ℤ × Bool)) (L : ℤ) :
    lastSucc ((x, false) :: t) L = lastSucc t L := by
  have hf : List.filter (fun p => p.2) ((x, false) :: t)
      = List.filter (fun p => p.2) t := by
    simp [List.filter_cons]
  unfold lastSucc
  rw [hf]

lemma lastSucc_mem : ∀ (t : List (ℤ × Bool)) (L : ℤ),
    lastSucc t L = L ∨ (lastSucc t L, true) ∈ t := by
  intro t
  induction t with
  | nil => intro L; exact Or.inl rfl
  | cons p t ih =>
    intro L
    obtain ⟨x, b⟩ := p
    cases b with
    | true =>
      rw [lastSucc_cons_true]
      rcases ih x with h | h
      · exact Or.inr (by rw [h]; exact List.mem_cons_self _ _)
      · exact Or.inr (List.mem_cons_of_mem _ h)
    | false =>
      rw [lastSucc_cons_false]
      rcases ih L with h | h
      · exact Or.inl h
      · exact Or.inr (List.mem_cons_of_mem _ h)

lemma lengthSweep_spec (w : World) (ports : List String) (speed mx : ℤ) :
    ∀ (fuel : ℕ) (l L : ℤ) (st : St) (tr0 : List (ℤ × Bool))
      (early : Bool) (last : ℤ) (st' : St) (tr : List (ℤ × Bool)),
    (mx - l).toNat < fuel →
    lengthSweep w ports speed mx fuel l L st tr0 = .ok (early, last, st', tr) →
    ∃ t, tr = tr0 ++ t ∧
      t.map Prod.fst = (List.range t.length).map (fun i : ℕ => l + (i : ℤ)) ∧
      (early = true → ∃ t1 q, t = t1 ++ [q] ∧ q.2 = false ∧ ∀ p ∈ t1, p.2 = true) ∧
      (early = false → ∀ p ∈ t, p.2 = true) ∧
      last = lastSucc t L := by
  intro fuel
  induction fuel with
  | zero => intro l L st tr0 early last st' tr hf; omega
  | succ f ih =>
    intro l L st tr0 early last st' tr hf h
    rw [lengthSweep] at h
    by_cases hlt : l < mx
    · rw [if_pos hlt] at h
      cases htt : test_transmission w st ports l speed with
      | error e => rw [htt] at h; exact absurd h (by simp)
      | ok out =>
        obtain ⟨res, dl, ws, st2⟩ := out
        rw [htt] at h
        cases res with
        | true =>
          simp only [if_true] at h
          obtain ⟨t', htr, hmap, hearly, hok, hlast⟩ :=
            ih (l + 1) l st2 (tr0 ++ [(l, true)]) early last st' tr (by omega) h
          refine ⟨(l, true) :: t', by simp [htr], ?_, ?_, ?_, ?_⟩
          · have hcomp : ((fun i : ℕ => l + (i : ℤ)) ∘ Nat.succ)
                = (fun i : ℕ => (l + 1) + (i : ℤ)) := by
              funext i
              simp only [Function.comp, Nat.succ_eq_add_one]
              push_cast
              ring
            rw [List.length_cons, List.range_succ_eq_map, List.map_cons, List.map_cons,
              List.map_map, hcomp, ← hmap]
            norm_num
          · intro he
            obtain ⟨t1, q, rfl, hq, ht1⟩ := hearly he
            refine ⟨(l, true) :: t1, q, by simp, hq, ?_⟩
            intro p hp
            rcases List.mem_cons.mp hp with rfl | hp'
            · rfl
            · exact ht1 p hp'
          · intro he p hp
            rcases List.mem_cons.mp hp with rfl | hp'
            · rfl
            · exact hok he p hp'
          · rw [lastSucc_cons_true]
            exact hlast
        | false =>
          simp only [Bool.false_eq_true, if_false, Except.ok.injEq, Prod.mk.injEq] at h
          obtain ⟨he, hl, hst, htr⟩ := h
          refine ⟨[(l, false)], by rw [← htr], by simp [List.range_succ], ?_, ?_, ?_⟩
          · intro _
            exact ⟨[], (l, false), by simp, rfl, by simp⟩
          · intro hfa; rw [← he] at hfa; exact absurd hfa (by simp)
          · rw [← hl, lastSucc_cons_false]
            rfl
    · rw [if_neg hlt] at h
      simp only [Except.ok.injEq, Prod.mk.injEq] at h
      obtain ⟨he, hl, hst, htr⟩ := h
      refine ⟨[], by rw [← htr]; simp, by simp, ?_, fun _ => by simp, by rw [← hl]; rfl⟩
      intro hea; rw [← he] at hea; exact absurd hea (by simp)

/-- C7: test_for_length sweeps lengths upward from min_length in steps of 1
(each executed pass tests the consecutive lengths starting at min_length); a
pass runs to completion only if every tested length succeeded, and otherwise
ends at its first failing length, which ends the whole call at once (so at
most the final entry of a pass's trace is a failure, and a second pass exists
only if the first had no failure); the returned value is the most recently
recorded successful length, 0 if no length ever succeeded - in particular it
is 0 or a length whose transmission succeeded, never one that failed. -/
theorem length_search_spec (w : World) (st : St) (ports : List String)
    (speed mn mx : ℤ) (r : ℤ) (st' : St) (trs : List (List (ℤ × Bool)))
    (h : test_for_length w st ports speed mn mx = .ok (r, st', trs)) :
    (∀ t ∈ trs, t.map Prod.fst = (List.range t.length).map (fun i : ℕ => mn + (i : ℤ))) ∧
    ((∃ t1, trs = [t1] ∧ ∃ tpre q, t1 = tpre ++ [q] ∧ q.2 = false ∧ ∀ p ∈ tpre, p.2 = true) ∨
     (∃ t1 t2, trs = [t1, t2] ∧ ∀ p ∈ t1, p.2 = true)) ∧
    (∀ t ∈ trs, (∀ p ∈ t, p.2 = true) ∨
      ∃ tpre q, t = tpre ++ [q] ∧ q.2 = false ∧ ∀ p ∈ tpre, p.2 = true) ∧
    r = lastSucc trs.join 0 ∧
    (r = 0 ∨ (r, true) ∈ trs.join) := by
  rw [test_for_length] at h
  cases hs1 : lengthSweep w ports speed mx ((mx - mn).toNat + 1) mn 0 st [] with
  | error e => rw [hs1] at h; exact absurd h (by simp)
  | ok out1 =>
    obtain ⟨e1, l1, st1, t1⟩ := out1
    rw [hs1] at h
    obtain ⟨u1, htr1, hmap1, hearly1, hok1, hlast1⟩ :=
      lengthSweep_spec w ports speed mx _ mn 0 st [] e1 l1 st1 t1 (by omega) hs1
    rw [List.nil_append] at htr1
    subst htr1
    cases e1 with
    | true =>
      simp only [if_true, Except.ok.injEq, Prod.mk.injEq] at h
      obtain ⟨hr, hst', htrs⟩ := h
      subst hr; subst hst'; subst htrs
      obtain ⟨tpre, q, hsplit, hq, htpre⟩ := hearly1 rfl
      refine ⟨?_, Or.inl ⟨t1, rfl, tpre, q, hsplit, hq, htpre⟩, ?_, ?_, ?_⟩
      · intro t ht
        rw [List.mem_singleton.mp ht]
        exact hmap1
      · intro t ht
        rw [List.mem_singleton.mp ht]
        exact Or.inr ⟨tpre, q, hsplit, hq, htpre⟩
      · rw [hlast1]
        simp [List.join]
      · rcases lastSucc_mem t1 0 with hz | hmem
        · exact Or.inl (hlast1.trans hz)
        · right
          rw [hlast1]
          simpa [List.join] using hmem
    | false =>
      simp only [Bool.false_eq_true, if_false] at h
      cases hs2 : lengthSweep w ports speed mx ((mx - mn).toNat + 1) mn l1 st1 [] with
      | error e => rw [hs2] at h; exact absurd h (by simp)
      | ok out2 =>
        obtain ⟨e2, l2, st2, t2⟩ := out2
        rw [hs2] at h
        obtain ⟨t2, htr2, hmap2, hearly2, hok2, hlast2⟩ :=
          lengthSweep_spec w ports speed mx _ mn l1 st1 [] e2 l2 st2 t2 (by omega) hs2
        rw [List.nil_append] at htr2
        subst htr2
        simp only [Except.ok.injEq, Prod.mk.injEq] at h
        obtain ⟨hr, hst', htrs⟩ := h
        subst hr; subst hst'; subst htrs
        have hall1 : ∀ p ∈ t1, p.2 = true := hok1 rfl
        have hstruct2 : (∀ p ∈ t2, p.2 = true) ∨
            ∃ tpre q, t2 = tpre ++ [q] ∧ q.2 = false ∧ ∀ p ∈ tpre, p.2 = true := by
          cases e2 with
          | true => exact Or.inr (hearly2 rfl)
          | false => exact Or.inl (hok2 rfl)
        refine ⟨?_, Or.inr ⟨t1, t2, rfl, hall1⟩, ?_, ?_, ?_⟩
        · intro t ht
          rcases List.mem_cons.mp ht with rfl | ht'
          · exact hmap1
          · rw [List.mem_singleton.mp ht']
            exact hmap2
        · intro t ht
          rcases List.mem_cons.mp ht with rfl | ht'
          · exact Or.inl hall1
          · rw [List.mem_singleton.mp ht']
            exact hstruct2
        · rw [hlast2, hlast1]
          have : ([t1, t2] : List (List (ℤ × Bool))).join = t1 ++ t2 := by
            simp [List.join]
          rw [this, lastSucc_append]
        · have hj : ([t1, t2] : List (List (ℤ × Bool))).join = t1 ++ t2 := by
            simp [List.join]
          rcases lastSucc_mem (t1 ++ t2) 0 with hz | hmem
          · left
            rw [hlast2, hlast1, ← lastSucc_append]
            exact hz
          · right
            rw [hj, hlast2, hlast1, ← lastSucc_append]
            exact hmem

/-- World in which every read leaves nothing in the buffer, so every
verification fails. -/
def badWorld : World := { dev := fun _ => constDev [] 1, rng := zeroRng }

/-- Witness for C7 at a concrete failing run: the very first length fails,
so the search returns 0 after a single one-entry pass. -/
theorem length_search_spec_witness :
    (∀ t ∈ [[((0 : ℤ), false)]],
      t.map Prod.fst = (List.range t.length).map (fun i : ℕ => (0 : ℤ) + (i : ℤ))) ∧
    ((∃ t1, [[((0 : ℤ), false)]] = [t1] ∧
        ∃ tpre q, t1 = tpre ++ [q] ∧ q.2 = false ∧ ∀ p ∈ tpre, p.2 = true) ∨
     (∃ t1 t2, [[((0 : ℤ), false)]] = [t1, t2] ∧ ∀ p ∈ t1, p.2 = true)) ∧
    (∀ t ∈ [[((0 : ℤ), false)]], (∀ p ∈ t, p.2 = true) ∨
      ∃ tpre q, t = tpre ++ [q] ∧ q.2 = false ∧ ∀ p ∈ tpre, p.2 = true) ∧
    (0 : ℤ) = lastSucc ([[((0 : ℤ), false)]] : List (List (ℤ × Bool))).join 0 ∧
    ((0 : ℤ) = 0 ∨ ((0 : ℤ), true) ∈ ([[((0 : ℤ), false)]] : List (List (ℤ × Bool))).join) :=
  length_search_spec badWorld (0, 0) ["p"] 9600 0 2 0 (1, 1) [[(0, false)]] (by decide)

lemma statsFold_nonzero (c mn mx v : ℚ) (hmn : mn ≠ 0) (hmx : mx ≠ 0) :
    statsFold (c, mn, mx) v = (c + v, min mn v, max mx v) := by
  have h1 : (if mn > v then v else mn) = min mn v := by
    rcases le_or_lt mn v with h | h
    · rw [if_neg (not_lt.mpr h), min_eq_left h]
    · rw [if_pos h, min_eq_right h.le]
  have h2 : (if mx < v then v else mx) = max mx v := by
    rcases le_or_lt v mx with h | h
    · rw [if_neg (not_lt.mpr h), max_eq_left h]
    · rw [if_pos h, max_eq_right h.le]
  unfold statsFold
  simp only [if_neg hmn, if_neg hmx]
  rw [h1, h2]

lemma stats_foldl_nonzero : ∀ (t : List ℚ) (c mn mx : ℚ), mn ≠ 0 → mx ≠ 0 →
    (∀ x ∈ t, x ≠ 0) →
    t.foldl statsFold (c, mn, mx) = (c + t.sum, t.foldl min mn, t.foldl max mx) := by
  intro t
  induction t with
  | nil => intro c mn mx _ _ _; simp
  | cons v t ih =>
    intro c mn mx hmn hmx hl
    have hv : v ≠ 0 := hl v (by simp)
    rw [List.foldl_cons, statsFold_nonzero c mn mx v hmn hmx,
      ih (c + v) (min mn v) (max mx v)
        (by rcases min_choice mn v with h | h <;> rw [h] <;> assumption)
        (by rcases max_choice mx v with h | h <;> rw [h] <;> assumption)
        (fun x hx => hl x (by simp [hx]))]
    refine Prod.ext ?_ rfl
    simp only [List.sum_cons]
    ring

lemma foldl_min_le : ∀ (t : List ℚ) (v : ℚ),
    t.foldl min v ≤ v ∧ ∀ x ∈ t, t.foldl min v ≤ x := by
  intro t
  induction t with
  | nil => intro v; exact ⟨le_refl v, by simp⟩
  | cons y t ih =>
    intro v
    rw [List.foldl_cons]
    obtain ⟨h1, h2⟩ := ih (min v y)
    refine ⟨h1.trans (min_le_left _ _), ?_⟩
    intro x hx
    rcases List.mem_cons.mp hx with rfl | hx'
    · exact h1.trans (min_le_right _ _)
    · exact h2 x hx'

lemma le_foldl_max : ∀ (t : List ℚ) (v : ℚ),
    v ≤ t.foldl max v ∧ ∀ x ∈ t, x ≤ t.foldl max v := by
  intro t
  induction t with
  | nil => intro v; exact ⟨le_refl v, by simp⟩
  | cons y t ih =>
    intro v
    rw [List.foldl_cons]
    obtain ⟨h1, h2⟩ := ih (max v y)
    refine ⟨(le_max_left _ _).trans h1, ?_⟩
    intro x hx
    rcases List.mem_cons.mp hx with rfl | hx'
    · exact (le_max_right _ _).trans h1
    · exact h2 x hx'

/-- C8 (amended): whenever test_for_delay collects at least one latency
sample and every collected sample is nonzero, the arithmetic-mean delay it
returns lies between the minimum and maximum delays it reports, inclusive.
(The nonzero proviso is needed because the source's statistics loop uses 0 as
the not-yet-set marker for min_delay and max_delay, run.go lines 203-212.) -/
theorem delay_avg_between_min_max
    (w : World) (st : St) (ports : List String) (length speed samples : ℤ)
    (ds : List ℚ) (st₂ : St) (avg : Option ℚ) (mn mx : ℚ) (st' : St)
    (hd : delayLoop w ports length speed samples.toNat st [] = .ok (ds, st₂))
    (hne : ds ≠ []) (hnz : ∀ x ∈ ds, x ≠ 0)
    (h : test_for_delay w st ports length speed samples = .ok (avg, mn, mx, st')) :
    ∃ a, avg = some a ∧ mn ≤ a ∧ a ≤ mx := by
  simp only [test_for_delay, hd] at h
  obtain ⟨v, t, rfl⟩ : ∃ v t, ds = v :: t := by
    cases ds with
    | nil => exact absurd rfl hne
    | cons v t => exact ⟨v, t, rfl⟩
  have hv : v ≠ 0 := hnz v (by simp)
  have hstep : statsFold ((0 : ℚ), (0 : ℚ), (0 : ℚ)) v = (0 + v, v, v) := by
    unfold statsFold
    simp
  have hfold : (v :: t).foldl statsFold ((0 : ℚ), (0 : ℚ), (0 : ℚ))
      = (0 + v + t.sum, t.foldl min v, t.foldl max v) := by
    rw [List.foldl_cons, hstep]
    exact stats_foldl_nonzero t (0 + v) v v hv hv (fun x hx => hnz x (by simp [hx]))
  rw [hfold] at h
  simp only [List.length_cons] at h
  rw [if_neg (by omega : ¬ (t.length + 1 = 0))] at h
  simp only [Except.ok.injEq, Prod.mk.injEq] at h
  obtain ⟨havg, hmn, hmx, hst⟩ := h
  have hk : (0 : ℚ) < ((t.length + 1 : ℕ) : ℚ) := by
    exact_mod_cast Nat.succ_pos t.length
  have hmemle : ∀ x ∈ v :: t, t.foldl min v ≤ x := by
    intro x hx
    obtain ⟨h1, h2⟩ := foldl_min_le t v
    rcases List.mem_cons.mp hx with rfl | hx'
    · exact h1
    · exact h2 x hx'
  have hmemge : ∀ x ∈ v :: t, x ≤ t.foldl max v := by
    intro x hx
    obtain ⟨h1, h2⟩ := le_foldl_max t v
    rcases List.mem_cons.mp hx with rfl | hx'
    · exact h1
    · exact h2 x hx'
  have hlow : ((t.length + 1 : ℕ) : ℚ) * t.foldl min v ≤ 0 + v + t.sum := by
    have := List.card_nsmul_le_sum (v :: t) (t.foldl min v) hmemle
    rw [List.sum_cons, List.length_cons, nsmul_eq_mul] at this
    push_cast at this ⊢
    linarith
  have hhigh : 0 + v + t.sum ≤ ((t.length + 1 : ℕ) : ℚ) * t.foldl max v := by
    have := List.sum_le_card_nsmul (v :: t) (t.foldl max v) hmemge
    rw [List.sum_cons, List.length_cons, nsmul_eq_mul] at this
    push_cast at this ⊢
    linarith
  refine ⟨(0 + v + t.sum) / ((t.length + 1 : ℕ) : ℚ), havg.symm, ?_, ?_⟩
  · rw [← hmn, le_div_iff hk]
    calc t.foldl min v * ((t.length + 1 : ℕ) : ℚ)
        = ((t.length + 1 : ℕ) : ℚ) * t.foldl min v := by ring
      _ ≤ 0 + v + t.sum := hlow
  · rw [← hmx, div_le_iff hk]
    calc (0 : ℚ) + v + t.sum
        ≤ ((t.length + 1 : ℕ) : ℚ) * t.foldl max v := hhigh
      _ = t.foldl max v * ((t.length + 1 : ℕ) : ℚ) := by ring

/-- Witness for C8 at a concrete one-sample run with a nonzero latency. -/
theorem delay_avg_between_min_max_witness :
    ∃ a, (some (2 : ℚ) : Option ℚ) = some a ∧ (2 : ℚ) ≤ a ∧ a ≤ (2 : ℚ) :=
  delay_avg_between_min_max (okWorld 4 2) (0, 0) ["p"] 4 9600 1 [2] (1, 1)
    (some 2) 2 2 (1, 1) (by decide) (by simp) (by norm_num) (by
      have hd : delayLoop (okWorld 4 2) ["p"] 4 9600 (1 : ℤ).toNat (0, 0) []
          = .ok ([2], (1, 1)) := by decide
      have hfold : List.foldl statsFold ((0 : ℚ), (0 : ℚ), (0 : ℚ)) [2] = (2, 2, 2) := by
        norm_num [statsFold, List.foldl_cons, List.foldl_nil]
      simp only [test_for_delay, hd, hfold]
      norm_num)

/-- World for C8's counterexample: three devices, all echoing the length-4
packet correctly, with latencies 5, 0 and 10. -/
def w8 : World :=
  { dev := fun i => constDev (pktA 4) (if i = 0 then 5 else if i = 1 then 0 else 10),
    rng := zeroRng }

/-- Counterexample to C8 as stated: one successful transmission over three
devices collects the latency samples [5, 0, 10]; the zero sample re-arms the
0-as-unset marker of the statistics loop, so test_for_delay reports
min_delay = 10 while the returned average is 5: the average does NOT lie
between the reported minimum and maximum. -/
theorem delay_min_above_avg_counterexample :
    test_for_delay w8 (0, 0) ["p0", "p1", "p2"] 4 9600 1
      = .ok (some 5, 10, 10, (3, 1)) ∧ ¬ ((10 : ℚ) ≤ 5) := by
  have hd : delayLoop w8 ["p0", "p1", "p2"] 4 9600 (1 : ℤ).toNat (0, 0) []
      = .ok ([5, 0, 10], (3, 1)) := by decide
  have hfold : List.foldl statsFold ((0 : ℚ), (0 : ℚ), (0 : ℚ)) [5, 0, 10]
      = (15, 10, 10) := by
    norm_num [statsFold, List.foldl_cons, List.foldl_nil]
  refine ⟨?_, by norm_num⟩
  simp only [test_for_delay, hd, hfold]
  norm_num

/-- C9: test_for_delay invoked with samples = 0 performs no transmission and
terminates normally with the no-data result (the mean of the empty sequence,
NaN in Go's float64 arithmetic, modelled as `none`, with min_delay and
max_delay both 0); and likewise whenever the first run is unsuccessful, so
that the collected latency sequence is empty. -/
theorem delay_zero_samples_defined (w : World) (st : St) (ports : List String)
    (length speed : ℤ) :
    test_for_delay w st ports length speed 0 = .ok (none, 0, 0, st) ∧
    (∀ (samples : ℤ) (ds : List ℚ) (ws : List (List ℕ)) (st₂ : St),
      1 ≤ samples →
      test_transmission w st ports length speed = .ok (false, ds, ws, st₂) →
      test_for_delay w st ports length speed samples = .ok (none, 0, 0, st₂)) := by
  constructor
  · rfl
  · intro samples ds ws st₂ hs htt
    have hn : samples.toNat = (samples.toNat - 1) + 1 := by omega
    rw [test_for_delay, hn]
    simp only [delayLoop, htt, Bool.false_eq_true, if_false]
    rfl

/-- Witness for C9 at a concrete run whose first transmission fails. -/
theorem delay_zero_samples_defined_witness :
    test_for_delay w2read (0, 0) ["p"] 4 9600 0 = .ok (none, 0, 0, (0, 0)) ∧
    test_for_delay w2read (0, 0) ["p"] 4 9600 3 = .ok (none, 0, 0, (1, 1)) :=
  ⟨(delay_zero_samples_defined w2read (0, 0) ["p"] 4 9600).1,
   (delay_zero_samples_defined w2read (0, 0) ["p"] 4 9600).2 3 [] [pktA 4] (1, 1)
     (by norm_num) (by decide)⟩
